import Mathlib

/-!
Verification of `news.py` (paginated news fetch, relevance scoring, ranking).

The Python source is shallowly embedded:
* an article (a provider JSON record) becomes a structure of optional
  string fields, mirroring the `dict.get` accesses the code performs;
* the single-page fetch `fetch_news(...)` is an external effect and is
  modelled as an oracle `fetchPage : Nat → Except Unit (List Article)`
  (`.error` = the request raised an exception);
* the optional `progress_callback` is an oracle
  `Nat → Nat → Except Unit Unit` (`.error` = the callback raised);
* Python floats in the scorer are modelled as rationals (all constants
  involved — `10.0`, `0.5`, `2.0`, `48` — and the counts are exactly
  representable, so the arithmetic of the heuristic is exact);
* wall-clock time and `datetime.fromisoformat` are modelled by an oracle
  `parseAge : String → Option ℚ` giving the age in hours of a parsed
  date string relative to "now" (`none` = the ISO parse raised).
-/

namespace News

/-- A provider record, with exactly the fields `news.py` accesses via
`.get`.  `none` models an absent key; `some ""` an empty value (Python
distinguishes the two only through truthiness, which we reproduce). -/
structure Article where
  title : Option String := none
  snippet : Option String := none
  link : Option String := none
  url : Option String := none
  date : Option String := none
  published : Option String := none
  datetime : Option String := none
  deriving DecidableEq, Repr

/-- Python truthiness-aware `x or y` on two optional strings:
`a.get("link") or a.get("url")` falls through when `link` is missing
*or empty*. -/
def orElseTruthy (x y : Option String) : Option String :=
  match x with
  | some s => if s = "" then y else some s
  | none => y

/-- `link = a.get("link") or a.get("url")` from `fetch_news_paginated`. -/
def resolvedLink (a : Article) : Option String :=
  orElseTruthy a.link a.url

/-- The deduplication key actually used: the resolved link when it is a
truthy (non-empty) string, otherwise nothing (`if link:` fails and the
record is never deduplicated). -/
def keyOf (a : Article) : Option String :=
  match resolvedLink a with
  | some s => if s = "" then none else some s
  | none => none

/-- The inner `for a in batch:` loop of `fetch_news_paginated`: walk the
page in order; skip a record whose key is already in `seen_links`;
otherwise record its key (when truthy) and append it; stop as soon as
`len(results) >= limit`. Returns the updated `(seen_links, results)`. -/
def consumePage (limit : Nat) : List String → List Article → List Article →
    List String × List Article
  | seen, results, [] => (seen, results)
  | seen, results, a :: rest =>
    match keyOf a with
    | some s =>
      if s ∈ seen then
        consumePage limit seen results rest
      else
        let results' := results ++ [a]
        if limit ≤ results'.length then (s :: seen, results')
        else consumePage limit (s :: seen) results' rest
    | none =>
      let results' := results ++ [a]
      if limit ≤ results'.length then (seen, results')
      else consumePage limit seen results' rest

/-- The `while` loop of `fetch_news_paginated`.  `fuel` counts the pages
still allowed (`max_pages - page + 1`), so `fuel = 0` is `page > max_pages`.
Returns the final result (`.error` when the unguarded progress-callback
call on an empty page raised) together with the number of single-page
fetch requests issued. -/
def fetchLoop (fetchPage : Nat → Except Unit (List Article))
    (cb : Nat → Nat → Except Unit Unit) (limit pageSize : Nat) :
    Nat → Nat → List String → List Article →
    Except Unit (List Article) × Nat
  | 0, _, _, results => (Except.ok results, 0)
  | fuel + 1, page, seen, results =>
    if results.length < limit then
      match fetchPage page with
      | Except.error _ => (Except.ok results, 1)
      | Except.ok [] =>
        -- `if not batch:` — the progress callback here is NOT wrapped
        -- in try/except, so an exception from it propagates.
        match cb page results.length with
        | Except.ok _ => (Except.ok results, 1)
        | Except.error e => (Except.error e, 1)
      | Except.ok (a :: rest) =>
        let batch := a :: rest
        let sr := consumePage limit seen results batch
        -- the per-page progress callback is wrapped in try/except:
        -- its outcome is discarded.
        if batch.length < pageSize then (Except.ok sr.2, 1)
        else
          let out := fetchLoop fetchPage cb limit pageSize fuel (page + 1) sr.1 sr.2
          (out.1, out.2 + 1)
    else (Except.ok results, 0)

/-- `max_pages = max_pages or (math.ceil(limit / page_size) + 2)`:
the ceiling default replaces only a *falsy* argument (`None` or `0`). -/
def effectiveMaxPages (maxPages : Option Nat) (limit pageSize : Nat) : Nat :=
  match maxPages with
  | some m => if m = 0 then (limit + pageSize - 1) / pageSize + 2 else m
  | none => (limit + pageSize - 1) / pageSize + 2

/-- The declared Python default of the `max_pages` parameter
(`def fetch_news_paginated(..., max_pages=5, ...)`). -/
def defaultMaxPages : Option Nat := some 5

/-- `fetch_news_paginated`: start at page 1 with empty `seen_links` and
`results`. -/
def fetch_news_paginated (fetchPage : Nat → Except Unit (List Article))
    (cb : Nat → Nat → Except Unit Unit) (limit pageSize : Nat)
    (maxPages : Option Nat) : Except Unit (List Article) × Nat :=
  fetchLoop fetchPage cb limit pageSize
    (effectiveMaxPages maxPages limit pageSize) 1 [] []

/-- A progress callback that never raises; also models passing
`progress_callback=None` (no observable callback effect). -/
def okCb : Nat → Nat → Except Unit Unit := fun _ _ => Except.ok ()

/-- `main`'s fetch stage: it calls `fetch_news_paginated` with
`page_size=min(50, max(10, limit))`, `max_pages=6` and no progress
callback, writes `news.txt` when the call returns normally, and prints
an error (writing nothing) when it raises. `true` = a file is written. -/
def mainWritesFile (fetchPage : Nat → Except Unit (List Article))
    (limit : Nat) : Bool :=
  match (fetch_news_paginated fetchPage okCb limit
      (min 50 (max 10 limit)) (some 6)).1 with
  | Except.ok _ => true
  | Except.error _ => false

/-- No two members of the list carry the same truthy resolved link. -/
def distinctKeys (rs : List Article) : Prop :=
  rs.Pairwise (fun a b => keyOf a = none ∨ keyOf a ≠ keyOf b)

/-! ### Scorer (`article_relevance_score` and helpers) -/

/-- `str.lower()` on the ASCII text the scorer handles. -/
def pyLower (s : List Char) : List Char := s.map Char.toLower

/-- Scan for non-overlapping occurrences of a fixed non-empty needle:
on a hit, resume after the match (`skip = needle.length - 1` more chars
consumed before scanning resumes). -/
def countFrom (sub : List Char) : Nat → List Char → Nat
  | _, [] => 0
  | 0, c :: rest =>
    if sub.isPrefixOf (c :: rest) then countFrom sub (sub.length - 1) rest + 1
    else countFrom sub 0 rest
  | skip + 1, _ :: rest => countFrom sub skip rest

/-- Python `hay.count(sub)`: non-overlapping left-to-right occurrence
count, with the CPython convention that an empty needle occurs
`len(hay) + 1` times. -/
def pyCount (hay sub : List Char) : Nat :=
  match sub with
  | [] => hay.length + 1
  | _ :: _ => countFrom sub 0 hay

/-- Python `s.split()`: split on whitespace runs, dropping empties. -/
def splitWs : List Char → List Char → List (List Char)
  | acc, [] => if acc.isEmpty then [] else [acc.reverse]
  | acc, c :: rest =>
    if c.isWhitespace then
      if acc.isEmpty then splitWs [] rest else acc.reverse :: splitWs [] rest
    else splitWs (c :: acc) rest

/-- Python `sub in hay` on strings. -/
def hasInfix : List Char → List Char → Bool
  | [], sub => sub.isEmpty
  | c :: rest, sub => sub.isPrefixOf (c :: rest) || hasInfix rest sub

/-- `text = f"{article.get('title','')} {article.get('snippet','')}".lower()`. -/
def haystack (a : Article) : List Char :=
  pyLower ((a.title.getD "") ++ " " ++ (a.snippet.getD "")).data

/-- The frequency accumulation of `article_relevance_score`:
`freq = text.count(name)` then `for t in name.split(): freq += text.count(t) * 0.5`. -/
def freqOf (a : Article) (company : String) : ℚ :=
  let text := haystack a
  let name := pyLower company.data
  (splitWs [] name).foldl
    (fun f t => f + (pyCount text t : ℚ) * (1 / 2)) (pyCount text name : ℚ)

/-- Python truthiness of an optional string (`if s:`). -/
def truthy (x : Option String) : Option String :=
  match x with
  | some s => if s = "" then none else some s
  | none => none

/-- `date_str = article.get("date") or article.get("published") or
article.get("datetime")`. -/
def dateStrOf (a : Article) : Option String :=
  orElseTruthy a.date (orElseTruthy a.published a.datetime)

/-- The recency bonus computed when the ISO parse succeeded, as a
function of the age in `hours` (can be negative for a future-dated
instant): `max(0.0, (48 - min(hours, 48)) / 48 * 2.0)`. -/
def recencyScore (hours : ℚ) : ℚ :=
  max 0 ((48 - min hours 48) / 48 * 2)

/-- The `recency_score` branch of `article_relevance_score`: nothing
truthy in the date fields scores 0; a string the ISO parse accepts is
scored by age via `recencyScore`; otherwise the literal `"ago"`
fallback gives 1.0, any other unparseable string 0. -/
def recencyOf (parseAge : String → Option ℚ) (a : Article) : ℚ :=
  match truthy (dateStrOf a) with
  | none => 0
  | some s =>
    match parseAge s with
    | some hours => recencyScore hours
    | none => if hasInfix s.data "ago".data then 1 else 0

/-- `article_relevance_score(article, company)`:
`freq * 10.0 + recency_score`. -/
def article_relevance_score (parseAge : String → Option ℚ) (a : Article)
    (company : String) : ℚ :=
  freqOf a company * 10 + recencyOf parseAge a

/-- `rank_and_format(articles, company)`: score every article, then
`scored.sort(key=lambda s: s[0], reverse=True)` — a stable descending
sort, i.e. a stable merge sort under `y.1 ≤ x.1`. -/
def rank_and_format (parseAge : String → Option ℚ) (articles : List Article)
    (company : String) : List (ℚ × Article) :=
  (articles.map (fun a => (article_relevance_score parseAge a company, a))).mergeSort
    (fun x y => decide (y.1 ≤ x.1))

/-! ### Helper lemmas about the page-consumption loop -/

/-- Number of records in a list that carry no truthy resolved link. -/
def countNoKey (rs : List Article) : Nat :=
  rs.countP (fun a => (keyOf a).isNone)

theorem consumePage_cons_skip {a : Article} {s : String} {seen : List String}
    (limit : Nat) (results rest : List Article)
    (hk : keyOf a = some s) (hs : s ∈ seen) :
    consumePage limit seen results (a :: rest) =
      consumePage limit seen results rest := by
  simp [consumePage, hk, hs]

theorem consumePage_cons_new_stop {a : Article} {s : String} {seen : List String}
    {limit : Nat} {results : List Article} (rest : List Article)
    (hk : keyOf a = some s) (hs : s ∉ seen)
    (hl : limit ≤ results.length + 1) :
    consumePage limit seen results (a :: rest) = (s :: seen, results ++ [a]) := by
  simp [consumePage, hk, hs, hl]

theorem consumePage_cons_new_go {a : Article} {s : String} {seen : List String}
    {limit : Nat} {results : List Article} (rest : List Article)
    (hk : keyOf a = some s) (hs : s ∉ seen)
    (hl : ¬ limit ≤ results.length + 1) :
    consumePage limit seen results (a :: rest) =
      consumePage limit (s :: seen) (results ++ [a]) rest := by
  simp [consumePage, hk, hs, hl]

theorem consumePage_cons_nokey_stop {a : Article} {seen : List String}
    {limit : Nat} {results : List Article} (rest : List Article)
    (hk : keyOf a = none) (hl : limit ≤ results.length + 1) :
    consumePage limit seen results (a :: rest) = (seen, results ++ [a]) := by
  simp [consumePage, hk, hl]

theorem consumePage_cons_nokey_go {a : Article} {seen : List String}
    {limit : Nat} {results : List Article} (rest : List Article)
    (hk : keyOf a = none) (hl : ¬ limit ≤ results.length + 1) :
    consumePage limit seen results (a :: rest) =
      consumePage limit seen (results ++ [a]) rest := by
  simp [consumePage, hk, hl]

theorem consumePage_mem_mono (limit : Nat) :
    ∀ (batch : List Article) (seen : List String) (results : List Article)
      (x : Article), x ∈ results → x ∈ (consumePage limit seen results batch).2 := by
  intro batch
  induction batch with
  | nil => intro seen results x hx; simpa [consumePage] using hx
  | cons a rest ih =>
    intro seen results x hx
    have hx' : x ∈ results ++ [a] := List.mem_append_left _ hx
    cases hk : keyOf a with
    | some s =>
      by_cases hs : s ∈ seen
      · rw [consumePage_cons_skip limit results rest hk hs]
        exact ih seen results x hx
      · by_cases hl : limit ≤ results.length + 1
        · rw [consumePage_cons_new_stop rest hk hs hl]
          exact hx'
        · rw [consumePage_cons_new_go rest hk hs hl]
          exact ih _ _ x hx'
    | none =>
      by_cases hl : limit ≤ results.length + 1
      · rw [consumePage_cons_nokey_stop rest hk hl]
        exact hx'
      · rw [consumePage_cons_nokey_go rest hk hl]
        exact ih _ _ x hx'

theorem consumePage_length_le (limit : Nat) :
    ∀ (batch : List Article) (seen : List String) (results : List Article),
      results.length < limit →
      (consumePage limit seen results batch).2.length ≤ limit := by
  intro batch
  induction batch with
  | nil => intro seen results h; simpa [consumePage] using Nat.le_of_lt h
  | cons a rest ih =>
    intro seen results h
    have hlen : (results ++ [a]).length ≤ limit := by
      simp only [List.length_append, List.length_cons, List.length_nil]
      omega
    cases hk : keyOf a with
    | some s =>
      by_cases hs : s ∈ seen
      · rw [consumePage_cons_skip limit results rest hk hs]
        exact ih seen results h
      · by_cases hl : limit ≤ results.length + 1
        · rw [consumePage_cons_new_stop rest hk hs hl]
          exact hlen
        · rw [consumePage_cons_new_go rest hk hs hl]
          exact ih _ _ (by simpa using Nat.lt_of_not_le hl)
    | none =>
      by_cases hl : limit ≤ results.length + 1
      · rw [consumePage_cons_nokey_stop rest hk hl]
        exact hlen
      · rw [consumePage_cons_nokey_go rest hk hl]
        exact ih _ _ (by simpa using Nat.lt_of_not_le hl)

/-- The dedup invariant carried through a fetch: every truthy key of an
accumulated record has been recorded in `seen_links`, and the
accumulated records have pairwise distinct truthy keys. -/
def DedupInv (seen : List String) (results : List Article) : Prop :=
  (∀ a ∈ results, ∀ s, keyOf a = some s → s ∈ seen) ∧ distinctKeys results

/-- Appending one record whose truthy key (if any) is fresh preserves
the dedup invariant. -/
theorem dedupInv_append {seen : List String} {results : List Article}
    {a : Article} {seen' : List String}
    (hseen : ∀ b ∈ results, ∀ s, keyOf b = some s → s ∈ seen)
    (hdist : distinctKeys results)
    (hsub : seen ⊆ seen')
    (hkey : ∀ s, keyOf a = some s → s ∈ seen' ∧ s ∉ seen) :
    DedupInv seen' (results ++ [a]) := by
  constructor
  · intro b hb t ht
    rcases List.mem_append.1 hb with hb | hb
    · exact hsub (hseen b hb t ht)
    · have hba : b = a := by simpa using hb
      subst hba
      exact (hkey t ht).1
  · rw [distinctKeys, List.pairwise_append]
    refine ⟨hdist, List.pairwise_singleton _ _, ?_⟩
    intro x hx y hy
    have hya : y = a := by simpa using hy
    subst hya
    cases hkx : keyOf x with
    | none => exact Or.inl rfl
    | some t =>
      refine Or.inr ?_
      cases hky : keyOf y with
      | none => simp
      | some u =>
        have hu := hkey u hky
        intro hc
        simp only [Option.some.injEq] at hc
        subst hc
        exact hu.2 (hseen x hx t hkx)

theorem consumePage_inv (limit : Nat) :
    ∀ (batch : List Article) (seen : List String) (results : List Article),
      DedupInv seen results →
      DedupInv (consumePage limit seen results batch).1
        (consumePage limit seen results batch).2 := by
  intro batch
  induction batch with
  | nil => intro seen results h; simpa [consumePage] using h
  | cons a rest ih =>
    intro seen results h
    obtain ⟨hseen, hdist⟩ := h
    cases hk : keyOf a with
    | some s =>
      by_cases hs : s ∈ seen
      · rw [consumePage_cons_skip limit results rest hk hs]
        exact ih seen results ⟨hseen, hdist⟩
      · have hinv : DedupInv (s :: seen) (results ++ [a]) := by
          refine dedupInv_append hseen hdist (fun x hx => List.mem_cons_of_mem _ hx) ?_
          intro t ht
          rw [hk] at ht
          simp only [Option.some.injEq] at ht
          subst ht
          exact ⟨List.mem_cons_self _ _, hs⟩
        by_cases hl : limit ≤ results.length + 1
        · rw [consumePage_cons_new_stop rest hk hs hl]
          exact hinv
        · rw [consumePage_cons_new_go rest hk hs hl]
          exact ih _ _ hinv
    | none =>
      have hinv : DedupInv seen (results ++ [a]) := by
        refine dedupInv_append hseen hdist (List.Subset.refl _) ?_
        intro t ht
        rw [hk] at ht
        exact absurd ht (by simp)
      by_cases hl : limit ≤ results.length + 1
      · rw [consumePage_cons_nokey_stop rest hk hl]
        exact hinv
      · rw [consumePage_cons_nokey_go rest hk hl]
        exact ih _ _ hinv

theorem consumePage_countNoKey (limit : Nat) :
    ∀ (batch : List Article) (seen : List String) (results : List Article),
      results.length + batch.length < limit →
      countNoKey (consumePage limit seen results batch).2 =
        countNoKey results + countNoKey batch := by
  intro batch
  induction batch with
  | nil => intro seen results _; simp [consumePage, countNoKey]
  | cons a rest ih =>
    intro seen results h
    have hl : ¬ limit ≤ results.length + 1 := by
      simp only [List.length_cons] at h
      omega
    have hrec : (results ++ [a]).length + rest.length < limit := by
      simp only [List.length_append, List.length_cons, List.length_nil]
      simp only [List.length_cons] at h
      omega
    cases hk : keyOf a with
    | some s =>
      by_cases hs : s ∈ seen
      · rw [consumePage_cons_skip limit results rest hk hs]
        rw [ih seen results (by simp only [List.length_cons] at h ⊢; omega)]
        simp [countNoKey, List.countP_cons, hk]
      · rw [consumePage_cons_new_go rest hk hs hl, ih _ _ hrec]
        simp [countNoKey, List.countP_append, List.countP_cons, hk]
    | none =>
      rw [consumePage_cons_nokey_go rest hk hl, ih _ _ hrec]
      simp [countNoKey, List.countP_append, List.countP_cons, hk]
      omega

/-! ### Helper lemmas about the pagination loop -/

theorem fetchLoop_zero (fp : Nat → Except Unit (List Article))
    (cb : Nat → Nat → Except Unit Unit) (limit ps page : Nat)
    (seen : List String) (results : List Article) :
    fetchLoop fp cb limit ps 0 page seen results = (Except.ok results, 0) := rfl

theorem fetchLoop_full {fp : Nat → Except Unit (List Article)}
    {cb : Nat → Nat → Except Unit Unit} {limit : Nat} (ps fuel page : Nat)
    (seen : List String) {results : List Article}
    (h : ¬ results.length < limit) :
    fetchLoop fp cb limit ps (fuel + 1) page seen results =
      (Except.ok results, 0) := by
  simp [fetchLoop, h]

theorem fetchLoop_err {fp : Nat → Except Unit (List Article)}
    {cb : Nat → Nat → Except Unit Unit} {limit : Nat} {page : Nat}
    (ps fuel : Nat) (seen : List String) {results : List Article}
    (h : results.length < limit) (hfp : fp page = Except.error ()) :
    fetchLoop fp cb limit ps (fuel + 1) page seen results =
      (Except.ok results, 1) := by
  simp [fetchLoop, h, hfp]

theorem fetchLoop_empty {fp : Nat → Except Unit (List Article)}
    {cb : Nat → Nat → Except Unit Unit} {limit : Nat} {page : Nat}
    (ps fuel : Nat) (seen : List String) {results : List Article}
    (h : results.length < limit) (hfp : fp page = Except.ok []) :
    fetchLoop fp cb limit ps (fuel + 1) page seen results =
      ((match cb page results.length with
        | Except.ok _ => Except.ok results
        | Except.error e => Except.error e), 1) := by
  simp only [fetchLoop, if_pos h, hfp]
  cases cb page results.length <;> rfl

theorem fetchLoop_batch {fp : Nat → Except Unit (List Article)}
    {cb : Nat → Nat → Except Unit Unit} {limit : Nat} {page : Nat}
    (ps fuel : Nat) (seen : List String) {results : List Article}
    {a : Article} {rest : List Article}
    (h : results.length < limit) (hfp : fp page = Except.ok (a :: rest)) :
    fetchLoop fp cb limit ps (fuel + 1) page seen results =
      (if (a :: rest).length < ps then
        (Except.ok (consumePage limit seen results (a :: rest)).2, 1)
      else
        ((fetchLoop fp cb limit ps fuel (page + 1)
            (consumePage limit seen results (a :: rest)).1
            (consumePage limit seen results (a :: rest)).2).1,
          (fetchLoop fp cb limit ps fuel (page + 1)
            (consumePage limit seen results (a :: rest)).1
            (consumePage limit seen results (a :: rest)).2).2 + 1)) := by
  simp only [fetchLoop, if_pos h, hfp]

theorem fetchLoop_count_le (fp : Nat → Except Unit (List Article))
    (cb : Nat → Nat → Except Unit Unit) (limit ps : Nat) :
    ∀ (fuel page : Nat) (seen : List String) (results : List Article),
      (fetchLoop fp cb limit ps fuel page seen results).2 ≤ fuel := by
  intro fuel
  induction fuel with
  | zero => intro page seen results; simp [fetchLoop_zero]
  | succ fuel ih =>
    intro page seen results
    by_cases h : results.length < limit
    · cases hfp : fp page with
      | error e =>
        cases e
        rw [fetchLoop_err ps fuel seen h hfp]
        omega
      | ok batch =>
        cases batch with
        | nil =>
          rw [fetchLoop_empty ps fuel seen h hfp]
          cases cb page results.length <;> simp
        | cons a rest =>
          rw [fetchLoop_batch ps fuel seen h hfp]
          split
          · simp
          · simpa using ih (page + 1) _ _
    · rw [fetchLoop_full ps fuel page seen h]
      simp

theorem fetchLoop_length_le (fp : Nat → Except Unit (List Article))
    (cb : Nat → Nat → Except Unit Unit) (limit ps : Nat) :
    ∀ (fuel page : Nat) (seen : List String) (results : List Article)
      (rs : List Article) (n : Nat),
      results.length ≤ limit →
      fetchLoop fp cb limit ps fuel page seen results = (Except.ok rs, n) →
      rs.length ≤ limit := by
  intro fuel
  induction fuel with
  | zero =>
    intro page seen results rs n hle heq
    rw [fetchLoop_zero] at heq
    obtain ⟨h1, -⟩ := Prod.mk.injEq .. ▸ heq
    cases heq
    simpa using hle
  | succ fuel ih =>
    intro page seen results rs n hle heq
    by_cases h : results.length < limit
    · cases hfp : fp page with
      | error e =>
        cases e
        rw [fetchLoop_err ps fuel seen h hfp] at heq
        cases heq
        exact hle
      | ok batch =>
        cases batch with
        | nil =>
          rw [fetchLoop_empty ps fuel seen h hfp] at heq
          cases hcb : cb page results.length <;> rw [hcb] at heq <;> cases heq
          exact hle
        | cons a rest =>
          have hcp := consumePage_length_le limit (a :: rest) seen results h
          rw [fetchLoop_batch ps fuel seen h hfp] at heq
          by_cases hshort : (a :: rest).length < ps
          · rw [if_pos hshort] at heq
            cases heq
            exact hcp
          · rw [if_neg hshort] at heq
            obtain ⟨h1, -⟩ := Prod.mk.injEq .. ▸ heq
            have : fetchLoop fp cb limit ps fuel (page + 1)
                (consumePage limit seen results (a :: rest)).1
                (consumePage limit seen results (a :: rest)).2 =
                (Except.ok rs,
                  (fetchLoop fp cb limit ps fuel (page + 1)
                    (consumePage limit seen results (a :: rest)).1
                    (consumePage limit seen results (a :: rest)).2).2) := by
              have h1' : (fetchLoop fp cb limit ps fuel (page + 1)
                  (consumePage limit seen results (a :: rest)).1
                  (consumePage limit seen results (a :: rest)).2).1 =
                  Except.ok rs := by
                have := congrArg Prod.fst heq
                simpa using this
              exact Prod.ext h1' rfl
            exact ih (page + 1) _ _ rs _ hcp this
    · rw [fetchLoop_full ps fuel page seen h] at heq
      cases heq
      exact hle

theorem fetchLoop_inv (fp : Nat → Except Unit (List Article))
    (cb : Nat → Nat → Except Unit Unit) (limit ps : Nat) :
    ∀ (fuel page : Nat) (seen : List String) (results : List Article)
      (rs : List Article) (n : Nat),
      DedupInv seen results →
      fetchLoop fp cb limit ps fuel page seen results = (Except.ok rs, n) →
      distinctKeys rs := by
  intro fuel
  induction fuel with
  | zero =>
    intro page seen results rs n hinv heq
    rw [fetchLoop_zero] at heq
    cases heq
    exact hinv.2
  | succ fuel ih =>
    intro page seen results rs n hinv heq
    by_cases h : results.length < limit
    · cases hfp : fp page with
      | error e =>
        cases e
        rw [fetchLoop_err ps fuel seen h hfp] at heq
        cases heq
        exact hinv.2
      | ok batch =>
        cases batch with
        | nil =>
          rw [fetchLoop_empty ps fuel seen h hfp] at heq
          cases hcb : cb page results.length <;> rw [hcb] at heq <;> cases heq
          exact hinv.2
        | cons a rest =>
          have hcp := consumePage_inv limit (a :: rest) seen results hinv
          rw [fetchLoop_batch ps fuel seen h hfp] at heq
          by_cases hshort : (a :: rest).length < ps
          · rw [if_pos hshort] at heq
            cases heq
            exact hcp.2
          · rw [if_neg hshort] at heq
            have h1' : (fetchLoop fp cb limit ps fuel (page + 1)
                (consumePage limit seen results (a :: rest)).1
                (consumePage limit seen results (a :: rest)).2).1 =
                Except.ok rs := by
              have := congrArg Prod.fst heq
              simpa using this
            exact ih (page + 1) _ _ rs _ hcp (Prod.ext h1' rfl)
    · rw [fetchLoop_full ps fuel page seen h] at heq
      cases heq
      exact hinv.2

/-- With a callback that never raises, the loop never raises. -/
theorem fetchLoop_okCb_ok (fp : Nat → Except Unit (List Article))
    (limit ps : Nat) :
    ∀ (fuel page : Nat) (seen : List String) (results : List Article),
      ∃ rs, (fetchLoop fp okCb limit ps fuel page seen results).1 =
        Except.ok rs := by
  intro fuel
  induction fuel with
  | zero => intro page seen results; exact ⟨results, rfl⟩
  | succ fuel ih =>
    intro page seen results
    by_cases h : results.length < limit
    · cases hfp : fp page with
      | error e =>
        cases e
        rw [fetchLoop_err ps fuel seen h hfp]
        exact ⟨results, rfl⟩
      | ok batch =>
        cases batch with
        | nil =>
          rw [fetchLoop_empty ps fuel seen h hfp]
          exact ⟨results, rfl⟩
        | cons a rest =>
          rw [fetchLoop_batch ps fuel seen h hfp]
          by_cases hshort : (a :: rest).length < ps
          · rw [if_pos hshort]
            exact ⟨_, rfl⟩
          · rw [if_neg hshort]
            exact ih (page + 1) _ _
    · rw [fetchLoop_full ps fuel page seen h]
      exact ⟨results, rfl⟩

/-- As long as no page comes back empty, the (possibly raising)
progress callback has no influence at all on the fetch outcome:
its only unguarded invocation site is the empty-page branch. -/
theorem fetchLoop_cb_irrelevant (fp : Nat → Except Unit (List Article))
    (cb : Nat → Nat → Except Unit Unit) (limit ps : Nat)
    (hne : ∀ p b, fp p = Except.ok b → b ≠ []) :
    ∀ (fuel page : Nat) (seen : List String) (results : List Article),
      fetchLoop fp cb limit ps fuel page seen results =
        fetchLoop fp okCb limit ps fuel page seen results := by
  intro fuel
  induction fuel with
  | zero => intro page seen results; rfl
  | succ fuel ih =>
    intro page seen results
    by_cases h : results.length < limit
    · cases hfp : fp page with
      | error e =>
        cases e
        rw [fetchLoop_err ps fuel seen h hfp,
          fetchLoop_err ps fuel seen h hfp]
      | ok batch =>
        cases batch with
        | nil => exact absurd rfl (hne page [] hfp)
        | cons a rest =>
          rw [fetchLoop_batch ps fuel seen h hfp,
            fetchLoop_batch ps fuel seen h hfp, ih (page + 1)]
    · rw [fetchLoop_full ps fuel page seen h,
        fetchLoop_full ps fuel page seen h]

/-! ### Helper lemmas for the scorer -/

theorem foldl_add_halves (g : List Char → ℚ) :
    ∀ (l : List (List Char)) (b : ℚ),
      l.foldl (fun f t => f + g t * (1 / 2)) b = b + (1 / 2) * (l.map g).sum := by
  intro l
  induction l with
  | nil => intro b; simp
  | cons t rest ih =>
    intro b
    simp only [List.foldl_cons, List.map_cons, List.sum_cons, ih]
    ring

/-- `math.ceil(a / b) = (a + b - 1) / b` on naturals with `b > 0`. -/
theorem cast_ceil_div (a b : Nat) (hb : 0 < b) :
    ⌈(a : ℚ) / (b : ℚ)⌉ = (((a + b - 1) / b : Nat) : ℤ) := by
  have hb' : (0 : ℚ) < (b : ℚ) := by exact_mod_cast hb
  set q := (a + b - 1) / b with hq
  have hab : 1 ≤ a + b := by omega
  have h1 : q * b ≤ a + b - 1 := Nat.div_mul_le_self _ _
  have h2 : a + b - 1 < q * b + b := by
    have hdm : b * q + (a + b - 1) % b = a + b - 1 := Nat.div_add_mod _ _
    have hmod : (a + b - 1) % b < b := Nat.mod_lt _ hb
    rw [Nat.mul_comm] at hdm
    omega
  have h1z : (q : ℤ) * b ≤ (a : ℤ) + b - 1 := by zify [hab] at h1; exact h1
  have h2z : (a : ℤ) + b - 1 < (q : ℤ) * b + b := by zify [hab] at h2; exact h2
  rw [Int.ceil_eq_iff]
  constructor
  · rw [lt_div_iff₀ hb']
    push_cast
    have hz : (q : ℤ) * b - b < a := by linarith
    have hq' : ((q : ℚ) - 1) * b = (q : ℚ) * b - b := by ring
    rw [hq']
    exact_mod_cast hz
  · rw [div_le_iff₀ hb']
    push_cast
    have hz : (a : ℤ) ≤ q * b := by linarith
    exact_mod_cast hz

/-- Closed form of the `freq` accumulation loop. -/
theorem freqOf_eq (a : Article) (company : String) :
    freqOf a company =
      (pyCount (haystack a) (pyLower company.data) : ℚ)
      + (1 / 2) * (((splitWs [] (pyLower company.data)).map
          (fun t => (pyCount (haystack a) t : ℚ))).sum) := by
  show (splitWs [] (pyLower company.data)).foldl
      (fun f t => f + (pyCount (haystack a) t : ℚ) * (1 / 2))
      ((pyCount (haystack a) (pyLower company.data) : ℚ)) = _
  exact foldl_add_halves _ _ _

/-! ### Claim theorems -/

/-- C7: `article_relevance_score` equals `freq × 10.0 + recency_score`,
where `freq` is the count of the lowercase full company name in the
lowercase title-plus-snippet haystack plus `0.5 ×` the count of each
whitespace token of the name; on the spec's instance (title
`"Acme wins big"`, snippet `"Acme Acme deal"`, company `"Acme"`) `freq`
is exactly `3 + 0.5 × 3 = 4.5`. -/
theorem relevance_freq_formula :
    (∀ (parseAge : String → Option ℚ) (a : Article) (company : String),
      article_relevance_score parseAge a company =
        freqOf a company * 10 + recencyOf parseAge a)
    ∧ (∀ (a : Article) (company : String),
        freqOf a company =
          (pyCount (haystack a) (pyLower company.data) : ℚ)
          + (1 / 2) * (((splitWs [] (pyLower company.data)).map
              (fun t => (pyCount (haystack a) t : ℚ))).sum))
    ∧ freqOf { title := some "Acme wins big", snippet := some "Acme Acme deal" }
        "Acme" = 9 / 2 := by
  refine ⟨fun _ _ _ => rfl, freqOf_eq, ?_⟩
  rw [freqOf_eq]
  have h1 : pyCount
      (haystack { title := some "Acme wins big", snippet := some "Acme Acme deal" })
      (pyLower "Acme".data) = 3 := by decide
  have h2 : splitWs [] (pyLower "Acme".data) = ["acme".data] := by decide
  have h3 : pyCount
      (haystack { title := some "Acme wins big", snippet := some "Acme Acme deal" })
      "acme".data = 3 := by decide
  rw [h1, h2]
  simp only [List.map_cons, List.map_nil, h3, List.sum_cons, List.sum_nil]
  norm_num

/-- C10: with an empty company string, the full-name scan counts the
empty substring `len(haystack) + 1` times and the token loop adds
nothing (splitting `""` yields no tokens), so the score is
`10 × (len(haystack) + 1)` plus the recency bonus. -/
theorem empty_company_score :
    ∀ (parseAge : String → Option ℚ) (a : Article),
      freqOf a "" = ((haystack a).length + 1 : ℚ)
      ∧ article_relevance_score parseAge a "" =
          ((haystack a).length + 1 : ℚ) * 10 + recencyOf parseAge a := by
  intro parseAge a
  have hlower : pyLower "".data = [] := rfl
  have hfreq : freqOf a "" = ((haystack a).length + 1 : ℚ) := by
    rw [freqOf_eq, hlower]
    show ((pyCount (haystack a) [] : ℚ)) + (1 / 2) * ([] : List ℚ).sum = _
    rw [pyCount]
    simp only [List.sum_nil, mul_zero, add_zero]
    push_cast
    ring
  refine ⟨hfreq, ?_⟩
  show freqOf a "" * 10 + recencyOf parseAge a = _
  rw [hfreq]

/-- C8 (counterexample): the claim's bound "the recency score always
lies between 0.0 and 2.0" fails on the code for a future-dated article:
an ISO date 48 hours in the future (elapsed hours = −48) scores 4.0. -/
theorem recency_exceeds_two_for_future_date :
    recencyScore (-48) = 4 ∧ ¬ recencyScore (-48) ≤ 2 := by
  have h : recencyScore (-48) = 4 := by
    rw [recencyScore]
    rw [min_eq_left (by norm_num : (-48 : ℚ) ≤ 48)]
    rw [max_eq_right (by norm_num : (0 : ℚ) ≤ (48 - (-48)) / 48 * 2)]
    norm_num
  exact ⟨h, by rw [h]; norm_num⟩

/-- C8 (amended): for a parsed ISO date, the recency score is
`max(0, (48 − min(hours, 48)) / 48 × 2)`; whenever the elapsed age is
nonnegative this lies between 0.0 and 2.0 inclusive, equals 2.0 at age
0, 1.0 at age 24 hours, and 0.0 at age ≥ 48 hours (for a negative age —
a future-dated article — it exceeds 2). -/
theorem recency_bounds_amended :
    (∀ h : ℚ, 0 ≤ h → 0 ≤ recencyScore h ∧ recencyScore h ≤ 2)
    ∧ recencyScore 0 = 2 ∧ recencyScore 24 = 1
    ∧ (∀ h : ℚ, 48 ≤ h → recencyScore h = 0) := by
  refine ⟨?_, ?_, ?_, ?_⟩
  · intro h h0
    constructor
    · exact le_max_left _ _
    · apply max_le (by norm_num)
      have hmin : (0 : ℚ) ≤ min h 48 := le_min h0 (by norm_num)
      nlinarith [hmin]
  · rw [recencyScore, min_eq_left (by norm_num : (0 : ℚ) ≤ 48)]
    norm_num
  · rw [recencyScore, min_eq_left (by norm_num : (24 : ℚ) ≤ 48)]
    norm_num
  · intro h h48
    rw [recencyScore, min_eq_right h48]
    norm_num

/-- Witness for C8's amended theorem at ages 24 and 48. -/
theorem recency_bounds_amended_witness :
    (0 ≤ recencyScore 24 ∧ recencyScore 24 ≤ 2) ∧ recencyScore 48 = 0 :=
  ⟨recency_bounds_amended.1 24 (by norm_num),
    recency_bounds_amended.2.2.2 48 le_rfl⟩

/-- C6 (counterexample): when the caller does not supply `max_pages`,
Python uses the declared default `5`, which is truthy, so the
`ceil(limit/page_size) + 2` formula does NOT apply: at
`limit = 100`, `page_size = 20` the maximum page count used is `5`,
not `⌈100/20⌉ + 2 = 7`. -/
theorem default_max_pages_not_ceil :
    effectiveMaxPages defaultMaxPages 100 20 = 5
    ∧ ⌈(100 : ℚ) / (20 : ℚ)⌉ + 2 = 7
    ∧ (5 : ℤ) ≠ 7 := by
  refine ⟨by decide, ?_, by decide⟩
  have h : (100 : ℚ) / (20 : ℚ) = 5 := by norm_num
  rw [h]
  norm_num

/-- C6 (amended): the `ceil(limit/page_size) + 2` default applies only
when the caller passes a falsy `max_pages` (`None` or `0`); a truthy
supplied value is used as-is, and an unsupplied `max_pages` means the
Python default `5`. -/
theorem max_pages_default_amended :
    ∀ limit ps : Nat, 0 < ps →
      ((effectiveMaxPages none limit ps : ℤ) = ⌈(limit : ℚ) / (ps : ℚ)⌉ + 2
        ∧ (effectiveMaxPages (some 0) limit ps : ℤ) = ⌈(limit : ℚ) / (ps : ℚ)⌉ + 2)
      ∧ (∀ m : Nat, m ≠ 0 → effectiveMaxPages (some m) limit ps = m)
      ∧ effectiveMaxPages defaultMaxPages limit ps = 5 := by
  intro limit ps hps
  have hceil := cast_ceil_div limit ps hps
  refine ⟨⟨?_, ?_⟩, ?_, ?_⟩
  · rw [effectiveMaxPages, hceil]; push_cast; ring
  · rw [effectiveMaxPages, hceil]; norm_num
  · intro m hm
    rw [effectiveMaxPages, if_neg hm]
  · rfl

/-- Witness for C6's amended theorem at `limit = 100`, `page_size = 20`. -/
theorem max_pages_default_amended_witness :
    ((effectiveMaxPages none 100 20 : ℤ) = ⌈(100 : ℚ) / (20 : ℚ)⌉ + 2
      ∧ (effectiveMaxPages (some 0) 100 20 : ℤ) = ⌈(100 : ℚ) / (20 : ℚ)⌉ + 2)
    ∧ (∀ m : Nat, m ≠ 0 → effectiveMaxPages (some m) 100 20 = m)
    ∧ effectiveMaxPages defaultMaxPages 100 20 = 5 :=
  max_pages_default_amended 100 20 (by norm_num)

/-- Sample provider records used to instantiate the fetch theorems. -/
def sampleA : Article := { title := some "a", link := some "L1" }

def sampleB : Article := { title := some "b", link := some "L1" }

def sampleC : Article := { title := some "c", url := some "L2" }

def sampleD : Article := { title := some "d" }

/-- C3: if the single-page fetch raises at the page the loop is
processing, pagination stops at once and the call returns exactly the
entries accumulated so far (through the previous page), without
re-raising: the loop state `(page, seen, results)` yields
`(Except.ok results, 1)` — one failed request, no error escapes. -/
theorem fetch_error_returns_partial :
    ∀ (fp : Nat → Except Unit (List Article)) (cb : Nat → Nat → Except Unit Unit)
      (limit ps fuel page : Nat) (seen : List String) (results : List Article),
      results.length < limit → fp page = Except.error () →
      fetchLoop fp cb limit ps (fuel + 1) page seen results =
        (Except.ok results, 1) := by
  intro fp cb limit ps fuel page seen results h hfp
  exact fetchLoop_err ps fuel seen h hfp

/-- Witness for C3: a fetch that raises at page 2 of a 4-page pull
returns the page-1 accumulation. -/
theorem fetch_error_returns_partial_witness :
    fetchLoop (fun p => if p = 1 then Except.ok [sampleA] else Except.error ())
      okCb 10 1 4 2 ["L1"] [sampleA] = (Except.ok [sampleA], 1) :=
  fetch_error_returns_partial
    (fun p => if p = 1 then Except.ok [sampleA] else Except.error ())
    okCb 10 1 3 2 ["L1"] [sampleA] (by decide) rfl

/-- C4 (counterexample): a run whose every page fetch raises still
writes `news.txt` — `fetch_news_paginated` swallows the per-page
exceptions and returns an empty list, so `main` proceeds to
`write_results` (the file then reports "No articles found."). -/
theorem failed_fetch_still_writes_file :
    mainWritesFile (fun _ => Except.error ()) 10 = true := rfl

/-- C4 (amended): `main` writes `news.txt` on every run that reaches
the fetch stage, whatever the page fetches do: with no progress
callback `fetch_news_paginated` never raises (page-fetch errors are
swallowed inside the loop), and a fetch whose every page raises
returns `Except.ok []`. -/
theorem main_always_writes_file :
    (∀ (fp : Nat → Except Unit (List Article)) (limit : Nat),
      mainWritesFile fp limit = true)
    ∧ (∀ (limit ps : Nat) (mp : Option Nat),
        (fetch_news_paginated (fun _ => Except.error ()) okCb limit ps mp).1 =
          Except.ok []) := by
  constructor
  · intro fp limit
    obtain ⟨rs, h⟩ := fetchLoop_okCb_ok fp limit (min 50 (max 10 limit))
      (effectiveMaxPages (some 6) limit (min 50 (max 10 limit))) 1 [] []
    simp [mainWritesFile, fetch_news_paginated, h]
  · intro limit ps mp
    cases hmp : effectiveMaxPages mp limit ps with
    | zero => rw [fetch_news_paginated, hmp, fetchLoop_zero]
    | succ n =>
      rw [fetch_news_paginated, hmp]
      by_cases h : ([] : List Article).length < limit
      · rw [fetchLoop_err ps n [] h rfl]
      · rw [fetchLoop_full ps n 1 [] h]

/-- C5 (counterexample): the progress-callback invocation for the
terminal empty page is NOT wrapped in try/except — a callback that
raises there makes `fetch_news_paginated` itself raise. -/
theorem empty_page_callback_error_propagates :
    (fetch_news_paginated (fun _ => Except.ok [])
      (fun _ _ => Except.error ()) 10 20 (some 6)).1 = Except.error () := rfl

/-- C5 (amended): the callback is invoked after each processed page
with `(page, len(results))`; an exception it raises at the guarded
per-page site (after a non-empty page) is swallowed — the whole fetch
outcome is then exactly as if the callback never raised — but an
exception raised by the callback invoked for the terminal empty page
propagates to the caller. -/
theorem callback_swallowing_amended :
    (∀ (fp : Nat → Except Unit (List Article)) (cb : Nat → Nat → Except Unit Unit)
      (limit ps fuel page : Nat) (seen : List String) (results : List Article),
      results.length < limit → fp page = Except.ok [] →
      cb page results.length = Except.error () →
      fetchLoop fp cb limit ps (fuel + 1) page seen results =
        (Except.error (), 1))
    ∧ (∀ (fp : Nat → Except Unit (List Article)) (cb : Nat → Nat → Except Unit Unit)
        (limit ps : Nat),
        (∀ p b, fp p = Except.ok b → b ≠ []) →
        ∀ (fuel page : Nat) (seen : List String) (results : List Article),
          fetchLoop fp cb limit ps fuel page seen results =
            fetchLoop fp okCb limit ps fuel page seen results) := by
  constructor
  · intro fp cb limit ps fuel page seen results h hfp hcb
    rw [fetchLoop_empty ps fuel seen h hfp, hcb]
  · intro fp cb limit ps hne
    exact fetchLoop_cb_irrelevant fp cb limit ps hne

/-- Witness for C5's amended theorem: a raising callback on an empty
first page propagates; with only non-empty pages a raising callback
has no effect on the outcome. -/
theorem callback_swallowing_amended_witness :
    fetchLoop (fun _ => Except.ok []) (fun _ _ => Except.error ()) 10 20 6 1 [] [] =
      (Except.error (), 1)
    ∧ fetchLoop (fun _ => Except.ok [sampleA]) (fun _ _ => Except.error ())
        3 20 4 1 [] [] =
      fetchLoop (fun _ => Except.ok [sampleA]) okCb 3 20 4 1 [] [] :=
  ⟨callback_swallowing_amended.1 (fun _ => Except.ok [])
      (fun _ _ => Except.error ()) 10 20 5 1 [] [] (by decide) rfl rfl,
    callback_swallowing_amended.2 (fun _ => Except.ok [sampleA])
      (fun _ _ => Except.error ()) 3 20
      (fun p b h => by injection h with h2; subst h2; simp) 4 1 [] []⟩

/-- A fetch oracle serving one full page of four records (with one
duplicate link) and nothing afterwards. -/
def fpW : Nat → Except Unit (List Article) := fun p =>
  if p = 1 then Except.ok [sampleA, sampleB, sampleC, sampleD] else Except.ok []

/-- C2: `fetch_news_paginated` returns at most `limit` entries and
issues at most `max_pages` single-page requests (the effective
maximum: the supplied truthy value, or the computed default); within a
page, records are appended only until the accumulated count reaches
`limit`, even if part of the page is left unconsumed. -/
theorem fetch_limit_and_pages :
    (∀ (fp : Nat → Except Unit (List Article)) (cb : Nat → Nat → Except Unit Unit)
      (limit ps : Nat) (mp : Option Nat) (rs : List Article) (n : Nat),
      fetch_news_paginated fp cb limit ps mp = (Except.ok rs, n) →
      rs.length ≤ limit)
    ∧ (∀ (fp : Nat → Except Unit (List Article)) (cb : Nat → Nat → Except Unit Unit)
        (limit ps : Nat) (mp : Option Nat),
        (fetch_news_paginated fp cb limit ps mp).2 ≤ effectiveMaxPages mp limit ps)
    ∧ (∀ (fp : Nat → Except Unit (List Article)) (cb : Nat → Nat → Except Unit Unit)
        (limit ps m : Nat), m ≠ 0 →
        (fetch_news_paginated fp cb limit ps (some m)).2 ≤ m)
    ∧ (∀ (limit : Nat) (seen : List String) (results batch : List Article),
        results.length < limit →
        (consumePage limit seen results batch).2.length ≤ limit) := by
  refine ⟨?_, ?_, ?_, ?_⟩
  · intro fp cb limit ps mp rs n heq
    exact fetchLoop_length_le fp cb limit ps _ 1 [] [] rs n (by simp) heq
  · intro fp cb limit ps mp
    exact fetchLoop_count_le fp cb limit ps _ 1 [] []
  · intro fp cb limit ps m hm
    rw [fetch_news_paginated, effectiveMaxPages, if_neg hm]
    exact fetchLoop_count_le fp cb limit ps m 1 [] []
  · intro limit seen results batch h
    exact consumePage_length_le limit batch seen results h

/-- Witness for C2 on a concrete fetch: one page of four records with
`limit = 2` keeps two entries, one request of the allowed five. -/
theorem fetch_limit_and_pages_witness :
    ([sampleA, sampleC] : List Article).length ≤ 2
    ∧ (fetch_news_paginated fpW okCb 2 4 (some 5)).2 ≤ effectiveMaxPages (some 5) 2 4
    ∧ (fetch_news_paginated fpW okCb 2 4 (some 5)).2 ≤ 5
    ∧ (consumePage 2 [] [] [sampleA, sampleB, sampleC, sampleD]).2.length ≤ 2 :=
  ⟨fetch_limit_and_pages.1 fpW okCb 2 4 (some 5) [sampleA, sampleC] 1 rfl,
    fetch_limit_and_pages.2.1 fpW okCb 2 4 (some 5),
    fetch_limit_and_pages.2.2.1 fpW okCb 2 4 5 (by decide),
    fetch_limit_and_pages.2.2.2 2 [] [] [sampleA, sampleB, sampleC, sampleD]
      (by decide)⟩

/-- C1: a fetch session never returns two entries with the same truthy
resolved link (`link`, falling back to `url`); a record whose key is
already in `seen_links` is dropped in favour of the first-seen copy,
a record with a fresh key is appended, and records lacking any truthy
link are never deduplicated (their count is preserved whenever the
`limit` cut-off does not interfere). -/
theorem fetch_dedup_invariant :
    (∀ (fp : Nat → Except Unit (List Article)) (cb : Nat → Nat → Except Unit Unit)
      (limit ps : Nat) (mp : Option Nat) (rs : List Article) (n : Nat),
      fetch_news_paginated fp cb limit ps mp = (Except.ok rs, n) →
      distinctKeys rs)
    ∧ (∀ (limit : Nat) (seen : List String) (results batch : List Article),
        results.length + batch.length < limit →
        countNoKey (consumePage limit seen results batch).2 =
          countNoKey results + countNoKey batch)
    ∧ (∀ (limit : Nat) (seen : List String) (results : List Article)
        (s : String) (a : Article) (rest : List Article),
        keyOf a = some s → s ∈ seen →
        consumePage limit seen results (a :: rest) =
          consumePage limit seen results rest)
    ∧ (∀ (limit : Nat) (seen : List String) (results : List Article)
        (s : String) (a : Article) (rest : List Article),
        keyOf a = some s → s ∉ seen →
        a ∈ (consumePage limit seen results (a :: rest)).2) := by
  refine ⟨?_, ?_, ?_, ?_⟩
  · intro fp cb limit ps mp rs n heq
    exact fetchLoop_inv fp cb limit ps _ 1 [] [] rs n
      ⟨by simp, List.Pairwise.nil⟩ heq
  · intro limit seen results batch h
    exact consumePage_countNoKey limit batch seen results h
  · intro limit seen results s a rest hk hs
    exact consumePage_cons_skip limit results rest hk hs
  · intro limit seen results s a rest hk hs
    by_cases hl : limit ≤ results.length + 1
    · rw [consumePage_cons_new_stop rest hk hs hl]
      exact List.mem_append_right _ (List.mem_singleton_self a)
    · rw [consumePage_cons_new_go rest hk hs hl]
      exact consumePage_mem_mono limit rest _ _ a
        (List.mem_append_right _ (List.mem_singleton_self a))

/-- Witness for C1 on a concrete session: four fetched records, one a
link-duplicate, give three pairwise-distinctly-keyed results; keyless
records are preserved; a seen key skips; a fresh key is kept. -/
theorem fetch_dedup_invariant_witness :
    distinctKeys [sampleA, sampleC, sampleD]
    ∧ countNoKey (consumePage 10 [] [] [sampleA, sampleD]).2 =
        countNoKey ([] : List Article) + countNoKey [sampleA, sampleD]
    ∧ consumePage 5 ["L1"] [] (sampleB :: [sampleD]) = consumePage 5 ["L1"] [] [sampleD]
    ∧ sampleA ∈ (consumePage 5 [] [] (sampleA :: [sampleB])).2 :=
  ⟨fetch_dedup_invariant.1 fpW okCb 10 4 (some 5) [sampleA, sampleC, sampleD] 2 rfl,
    fetch_dedup_invariant.2.1 10 [] [] [sampleA, sampleD] (by decide),
    fetch_dedup_invariant.2.2.1 5 ["L1"] [] "L1" sampleB [sampleD] (by decide)
      (by decide),
    fetch_dedup_invariant.2.2.2 5 [] [] "L1" sampleA [sampleB] (by decide)
      (by decide)⟩

/-! ### Helper lemmas for the ranking sort -/

/-- The boolean comparison `scored.sort(key=..., reverse=True)` sorts
by: later element's score ≤ earlier element's score. -/
def scoreGE (x y : ℚ × Article) : Bool := decide (y.1 ≤ x.1)

theorem scoreGE_trans : ∀ (a b c : ℚ × Article),
    scoreGE a b → scoreGE b c → scoreGE a c := by
  intro a b c hab hbc
  simp only [scoreGE, decide_eq_true_eq] at *
  exact le_trans hbc hab

theorem scoreGE_total : ∀ (a b : ℚ × Article), scoreGE a b || scoreGE b a := by
  intro a b
  simp only [scoreGE, Bool.or_eq_true, decide_eq_true_eq]
  exact le_total b.1 a.1

theorem rank_and_format_eq (parseAge : String → Option ℚ)
    (articles : List Article) (company : String) :
    rank_and_format parseAge articles company =
      (articles.map (fun a => (article_relevance_score parseAge a company, a))).mergeSort
        scoreGE := rfl

/-- C9: `rank_and_format` returns exactly one `(score, article)` pair
per input article (a permutation of the scored input), sorted by score
descending, and stable: a pair of equal-score entries appearing in
input order is still in that order in the output. -/
theorem rank_sorted_stable :
    (∀ (parseAge : String → Option ℚ) (articles : List Article) (company : String),
      (rank_and_format parseAge articles company).Perm
        (articles.map (fun a => (article_relevance_score parseAge a company, a))))
    ∧ (∀ (parseAge : String → Option ℚ) (articles : List Article) (company : String),
        (rank_and_format parseAge articles company).Pairwise
          (fun x y => y.1 ≤ x.1))
    ∧ (∀ (parseAge : String → Option ℚ) (articles : List Article) (company : String)
        (x y : ℚ × Article), x.1 = y.1 →
        List.Sublist [x, y]
          (articles.map (fun a => (article_relevance_score parseAge a company, a))) →
        List.Sublist [x, y] (rank_and_format parseAge articles company)) := by
  refine ⟨?_, ?_, ?_⟩
  · intro parseAge articles company
    rw [rank_and_format_eq]
    exact List.mergeSort_perm _ _
  · intro parseAge articles company
    rw [rank_and_format_eq]
    exact (List.sorted_mergeSort scoreGE_trans scoreGE_total _).imp
      (fun h => by simpa [scoreGE] using h)
  · intro parseAge articles company x y hxy hsub
    rw [rank_and_format_eq]
    exact List.pair_sublist_mergeSort scoreGE_trans scoreGE_total
      (by simp [scoreGE, hxy.ge]) hsub

/-- The trivial parse oracle (every date string fails the ISO parse). -/
def noParse : String → Option ℚ := fun _ => none

/-- Two dateless articles score identically for an unrelated company. -/
theorem sample_scores_equal :
    article_relevance_score noParse sampleA "z" =
      article_relevance_score noParse sampleB "z" := by
  have hA : article_relevance_score noParse sampleA "z" = 0 := by
    show freqOf sampleA "z" * 10 + recencyOf noParse sampleA = 0
    rw [freqOf_eq]
    norm_num [show pyCount (haystack sampleA) (pyLower "z".data) = 0 by decide,
      show splitWs [] (pyLower "z".data) = ["z".data] by decide,
      show pyCount (haystack sampleA) "z".data = 0 by decide,
      show recencyOf noParse sampleA = 0 from rfl]
  have hB : article_relevance_score noParse sampleB "z" = 0 := by
    show freqOf sampleB "z" * 10 + recencyOf noParse sampleB = 0
    rw [freqOf_eq]
    norm_num [show pyCount (haystack sampleB) (pyLower "z".data) = 0 by decide,
      show splitWs [] (pyLower "z".data) = ["z".data] by decide,
      show pyCount (haystack sampleB) "z".data = 0 by decide,
      show recencyOf noParse sampleB = 0 from rfl]
  rw [hA, hB]

/-- Witness for C9 on a two-article tie: output is a permutation of the
scored pairs, descending, and keeps the tied pair in input order. -/
theorem rank_sorted_stable_witness :
    ((rank_and_format noParse [sampleA, sampleB] "z").Perm
      ([sampleA, sampleB].map (fun a => (article_relevance_score noParse a "z", a))))
    ∧ (rank_and_format noParse [sampleA, sampleB] "z").Pairwise
        (fun x y => y.1 ≤ x.1)
    ∧ List.Sublist
        [(article_relevance_score noParse sampleA "z", sampleA),
          (article_relevance_score noParse sampleB "z", sampleB)]
        (rank_and_format noParse [sampleA, sampleB] "z") :=
  ⟨rank_sorted_stable.1 noParse [sampleA, sampleB] "z",
    rank_sorted_stable.2.1 noParse [sampleA, sampleB] "z",
    rank_sorted_stable.2.2 noParse [sampleA, sampleB] "z"
      (article_relevance_score noParse sampleA "z", sampleA)
      (article_relevance_score noParse sampleB "z", sampleB)
      sample_scores_equal
      (by rw [show ([sampleA, sampleB].map
          (fun a => (article_relevance_score noParse a "z", a))) =
            [(article_relevance_score noParse sampleA "z", sampleA),
              (article_relevance_score noParse sampleB "z", sampleB)] from rfl])⟩

end News
